import Mathlib

/-
Verification of the Insights analytics engine of the agentic health tracker.

The analytics helpers live in the frontend (src/frontend/src/pages/Insights.jsx,
with a variant of the goal-analytics table in an unnamed source part).  They are
shallowly embedded here: JavaScript numbers are modelled as rationals (reals
where a square root is computed), calendar dates as integers counting days, and
the current wall-clock date — read by some helpers via the Date constructor —
is passed as an explicit `now` parameter.
-/

/-- Linear regression helper `linReg(xs, ys)` from Insights.jsx: with fewer than
two x-values it returns slope 0 and intercept 0; otherwise the ordinary
least-squares fit, with slope 0 when the denominator is zero (JavaScript
truthiness of `den`).  The index loop `for i < n` is rendered as a zip; the
means divide by `n = xs.length`, exactly as the source does. -/
def linReg (xs ys : List ℚ) : ℚ × ℚ :=
  let n := xs.length
  if n < 2 then (0, 0) else
  let meanX := xs.sum / n
  let meanY := ys.sum / n
  let num := ((xs.zip ys).map (fun p => (p.1 - meanX) * (p.2 - meanY))).sum
  let den := (xs.map (fun x => (x - meanX) * (x - meanX))).sum
  let slope := if den = 0 then 0 else num / den
  (slope, meanY - slope * meanX)

/-- `WhatIfSection`'s required weekly pace: `(targetWeight - startW) / (totalDays / 7)`
with `totalDays = max(1, due - created)` in days.  `startW` is the goal's
starting weight (the component falls back to the current weight only when the
goal has no starting weight recorded). -/
def whatIfRequiredWeekly (targetWeight startW : ℚ) (created due : ℤ) : ℚ :=
  let totalDays : ℤ := max 1 (due - created)
  (targetWeight - startW) / ((totalDays : ℚ) / 7)

/-- `GoalAnalyticsSection` (Insights.jsx) required slope for one goal row:
`daysRemaining = max(0, round(due - now))`, `weeksRemaining = max(0.1, daysRemaining / 7)`,
`requiredSlope = (targetWeight - currentWeight) / weeksRemaining`.  Dates are
whole days, so the rounding of the day difference is the identity. -/
def goalRequiredSlope (targetWeight currentWeight : ℚ) (due now : ℤ) : ℚ :=
  let daysRemaining : ℤ := max 0 (due - now)
  let weeksRemaining : ℚ := max (1/10) ((daysRemaining : ℚ) / 7)
  (targetWeight - currentWeight) / weeksRemaining

/-- Shared sign test of the two goal-analytics variants:
`(req === 0) || ((req > 0) === (rec > 0))`. -/
def goalSameSign (req rec : ℚ) : Bool :=
  if req = 0 then true else decide (0 < req) == decide (0 < rec)

/-- Capped pace ratio of the goal-analytics table variant (unnamed part):
`req === 0 ? 1 : Math.min(2, Math.abs(rec) / (Math.abs(req) + 1e-6))`. -/
def ratio2 (req rec : ℚ) : ℚ :=
  if req = 0 then 1 else min 2 (|rec| / (|req| + 1/1000000))

/-- Pace ratio of Insights.jsx's `GoalAnalyticsSection`:
`Math.min(1, Math.abs(recentSlope) / (Math.abs(requiredSlope) + 1e-6))`. -/
def ratio1 (req rec : ℚ) : ℚ :=
  min 1 (|rec| / (|req| + 1/1000000))

/-- Fit label of the goal-analytics table variant (unnamed part):
`sameSign ? (ratio >= 1 ? 'On Track' : 'Behind') : 'Opposite'`. -/
def fitLabel (req rec : ℚ) : String :=
  if goalSameSign req rec then
    (if 1 ≤ ratio2 req rec then "On Track" else "Behind")
  else "Opposite"

/-- Probability score of Insights.jsx's `GoalAnalyticsSection`:
`Math.max(0, Math.min(100, Math.round(100 * (base + 0.4 * ratio))))` with
`base = 0.6` when the signs agree and `0.2` otherwise. -/
def probScore (req rec : ℚ) : ℤ :=
  let base : ℚ := if goalSameSign req rec then 3/5 else 1/5
  max 0 (min 100 (round ((100 : ℚ) * (base + 2/5 * ratio1 req rec))))

/-- The sign function as the spec uses the word: 1, -1 or 0. -/
def qsign (q : ℚ) : ℤ :=
  if 0 < q then 1 else if q < 0 then -1 else 0

/-- Clamp `v` into `[lo, hi]`. -/
def qclamp (v lo hi : ℚ) : ℚ := max lo (min hi v)

/-- The pace ratio exactly as the claim words it, with no special case for a
zero required slope: `min(2, |recent| / (|required| + epsilon))`. -/
def claimRatio (req rec : ℚ) : ℚ :=
  min 2 (|rec| / (|req| + 1/1000000))

/-- The fit label exactly as the claim words it: `same_sign = (required == 0) OR
(sign(required) == sign(recent))`, ratio as in `claimRatio`. -/
def claimFitLabel (req rec : ℚ) : String :=
  if req = 0 ∨ qsign req = qsign rec then
    (if 1 ≤ claimRatio req rec then "On Track" else "Behind")
  else "Opposite"

/-- Daily deltas as derived in the `Insights` component: for each consecutive
pair of (sorted) samples, when the day gap is positive, emit the per-day change
`(w[i] - w[i-1]) / days` attributed to the later date. -/
def dailyDeltas : List (ℤ × ℚ) → List (ℤ × ℚ)
  | p :: q :: rest =>
      let days := q.1 - p.1
      (if 0 < days then [(q.1, (q.2 - p.2) / (days : ℚ))] else [])
        ++ dailyDeltas (q :: rest)
  | _ => []

/-- The last-30-days delta restriction in the `Insights` component:
`deltas.filter(d => d.date >= addDays(new Date(), -30)).map(d => d.change)`,
with the wall-clock date passed explicitly as `now`. -/
def changes30d (deltas : List (ℤ × ℚ)) (now : ℤ) : List ℚ :=
  (deltas.filter (fun d => decide (now - 30 ≤ d.1))).map (fun d => d.2)

/-- `computeRecentSlope(history, user, metric)` from Insights.jsx.  The cutoff
is `addDays(new Date(), -56)` — 56 days before the wall-clock date, passed here
explicitly as `now`.  Samples on or after the cutoff are kept, sorted by date
(the JavaScript comparator sort is stable, hence a merge sort), x is the day
offset from the first kept sample, y is the weight (divided by height squared
in metres when the BMI metric is selected and a nonzero height is known), and
the result is the fitted slope times 7. -/
def computeRecentSlope (history : List (ℤ × ℚ)) (height : Option ℚ) (bmi : Bool)
    (now : ℤ) : ℚ :=
  if history.length < 2 then 0 else
  let cutoff := now - 56
  let points := (history.filter (fun p => decide (cutoff ≤ p.1))).mergeSort
    (fun a b => decide (a.1 ≤ b.1))
  if points.length < 2 then 0 else
  let x0 := (points.headD (0, 0)).1
  let xs := points.map (fun p => ((p.1 - x0 : ℤ) : ℚ))
  let ys0 := points.map (fun p => p.2)
  let ys := if bmi then
      (match height with
       | some h => if h = 0 then ys0 else points.map (fun p => p.2 / ((h/100) * (h/100)))
       | none => ys0)
    else ys0
  (linReg xs ys).1 * 7

/-- Bucket index of `histogram`: `Math.floor((v - min) / width)`, clamped first
to at most `bins - 1`, then to at least 0. -/
def histIndex (mn width : ℚ) (bins : ℕ) (v : ℚ) : ℕ :=
  let i0 : ℤ := ⌊(v - mn) / width⌋
  let i1 : ℤ := if (bins : ℤ) ≤ i0 then (bins : ℤ) - 1 else i0
  let i2 : ℤ := if i1 < 0 then 0 else i1
  i2.toNat

/-- Increment the counter at position `i`, the effect of `counts[idx]++`. -/
def incrAt : List ℕ → ℕ → List ℕ
  | [], _ => []
  | c :: cs, 0 => (c + 1) :: cs
  | c :: cs, n + 1 => c :: incrAt cs n

/-- `histogram(arr, bins)` from Insights.jsx: empty input gives an empty
result; when min equals max a single bucket holds all points; otherwise `bins`
equal-width buckets spanning [min, max], each labelled by its left edge, with
every value counted in its (clamped) bucket.  The label is the numeric left
edge (the source formats it with toFixed, a presentation step). -/
def histogram : List ℚ → ℕ → List (ℚ × ℕ)
  | [], _ => []
  | a :: rest, bins =>
      let arr := a :: rest
      let mn := arr.foldl min a
      let mx := arr.foldl max a
      if mn = mx then [(mn, arr.length)] else
      let width := (mx - mn) / (bins : ℚ)
      let counts := arr.foldl (fun cs v => incrAt cs (histIndex mn width bins v))
        (List.replicate bins 0)
      ((List.range bins).zip counts).map (fun p => (mn + (p.1 : ℚ) * width, p.2))

/-- `stddev(arr)` from Insights.jsx: 0 with fewer than two values, else the
square root of the population variance. -/
noncomputable def stddev (arr : List ℝ) : ℝ :=
  if arr.length < 2 then 0 else
  let m := arr.sum / arr.length
  Real.sqrt (((arr.map (fun b => (b - m) * (b - m))).sum) / arr.length)

open Classical in
/-- `countOutliers(arr)` from Insights.jsx: 0 with fewer than three values or a
zero standard deviation, else the number of values more than three standard
deviations from the mean. -/
noncomputable def countOutliers (arr : List ℝ) : ℕ :=
  if arr.length < 3 then 0 else
  let m := arr.sum / arr.length
  let s := stddev arr
  if s = 0 then 0 else
  (arr.filter (fun v => decide (3 * s < |v - m|))).length

/-- Modelled from the spec: the coefficient of determination reported by the
server-side TrendSummarizer, whose code is not under src/ — "standard
coefficient of determination of the same fit; 0 when variance of y is 0 (all
points equal) or when fewer than 2 points", with the fit taken from `linReg`. -/
def r2 (xs ys : List ℚ) : ℚ :=
  if xs.length < 2 then 0 else
  let n := xs.length
  let meanY := ys.sum / n
  let sstot := (ys.map (fun y => (y - meanY) * (y - meanY))).sum
  if sstot = 0 then 0 else
  let fit := linReg xs ys
  let ssres := ((xs.zip ys).map
    (fun p => (p.2 - (fit.2 + fit.1 * p.1)) * (p.2 - (fit.2 + fit.1 * p.1)))).sum
  1 - ssres / sstot

lemma list_sum_const (l : List ℚ) (c : ℚ) (h : ∀ x ∈ l, x = c) :
    l.sum = l.length * c := by
  induction l with
  | nil => simp
  | cons a t ih =>
      have ha : a = c := h a (by simp)
      have ht : t.sum = t.length * c := ih (fun x hx => h x (by simp [hx]))
      simp [ha, ht]
      ring

/-- Claim C10: the linear-regression helper is total: with fewer than 2 points
it returns slope 0 and intercept 0, and when all x-values are equal (so the
denominator is zero) it returns slope 0 with intercept the mean of the
y-values (the sum of y over the number of points). -/
theorem c10_linReg_total (xs ys : List ℚ) (c : ℚ) :
    (xs.length < 2 → linReg xs ys = (0, 0)) ∧
    (2 ≤ xs.length → (∀ x ∈ xs, x = c) →
      linReg xs ys = (0, ys.sum / xs.length)) := by
  constructor
  · intro h
    simp [linReg, h]
  · intro hlen hall
    have hn : ¬ xs.length < 2 := by omega
    have hpos : (0 : ℚ) < xs.length := by
      have : (2 : ℚ) ≤ xs.length := by exact_mod_cast hlen
      linarith
    have hsum : xs.sum = xs.length * c := list_sum_const xs c hall
    have hmx : xs.sum / xs.length = c := by
      rw [hsum]; field_simp
    have hden : (xs.map (fun x => (x - xs.sum / xs.length) * (x - xs.sum / xs.length))).sum = 0 := by
      apply List.sum_eq_zero
      intro y hy
      rcases List.mem_map.mp hy with ⟨x, hx, rfl⟩
      rw [hall x hx, hmx]
      ring
    simp [linReg, hn, hden]

/-- Witness for C10 at xs = [5,5], ys = [1,3]. -/
theorem c10_linReg_total_witness :
    linReg [5, 5] [1, 3] = (0, ([1, 3] : List ℚ).sum / ([5, 5] : List ℚ).length) :=
  (c10_linReg_total [5, 5] [1, 3] 5).2 (by simp) (by simp)

/-- Counterexample for C1: for the goal {target = 75, starting = 80, due 70
days out} with current weight 78 on day 0, `GoalAnalyticsSection`'s required
weekly pace is -0.3, not the (target - starting)/((due - created)/7) = -0.5 of
the claim. -/
theorem c1_required_pace_cex :
    goalRequiredSlope 75 78 70 0 = -3/10
  ∧ (75 - 80 : ℚ) / (((70 - 0 : ℤ) : ℚ) / 7) = -1/2
  ∧ goalRequiredSlope 75 78 70 0 ≠ (75 - 80 : ℚ) / (((70 - 0 : ℤ) : ℚ) / 7) := by
  norm_num [goalRequiredSlope, max_def]

/-- Claim C1 (amended): `WhatIfSection`'s required weekly pace equals
(target - starting) / ((due - created in days) / 7) whenever the due date is at
least one day after the created date, and is -0.5 for the concrete goal;
`GoalAnalyticsSection` instead divides (target - current weight) by the weeks
remaining until the due date. -/
theorem c1_required_pace :
    (∀ (t s : ℚ) (c d : ℤ), 1 ≤ d - c →
      whatIfRequiredWeekly t s c d = (t - s) / (((d - c : ℤ) : ℚ) / 7))
  ∧ whatIfRequiredWeekly 75 80 0 70 = -1/2 := by
  constructor
  · intro t s c d h
    have hmax : max 1 (d - c) = d - c := max_eq_right h
    rw [whatIfRequiredWeekly, hmax]
  · norm_num [whatIfRequiredWeekly, max_def]

/-- Witness for C1 at the spec's concrete goal. -/
theorem c1_required_pace_witness :
    (1 : ℤ) ≤ 70 - 0
  ∧ whatIfRequiredWeekly 75 80 0 70 = (75 - 80 : ℚ) / (((70 - 0 : ℤ) : ℚ) / 7) :=
  ⟨by decide, c1_required_pace.1 75 80 0 70 (by decide)⟩

lemma goalSameSign_iff (req rec : ℚ) :
    goalSameSign req rec = true ↔ (req = 0 ∨ (0 < req ↔ 0 < rec)) := by
  unfold goalSameSign
  by_cases h : req = 0 <;> simp [h, decide_eq_decide]

lemma claimRatio_nonneg (req rec : ℚ) : 0 ≤ claimRatio req rec := by
  unfold claimRatio
  have : (0 : ℚ) ≤ |rec| / (|req| + 1/1000000) := by positivity
  exact le_min (by norm_num) this

lemma ratio1_eq_min (req rec : ℚ) : ratio1 req rec = min 1 (claimRatio req rec) := by
  unfold ratio1 claimRatio
  rw [← min_assoc]
  norm_num

/-- Counterexample for C5: with required slope 0 and recent slope 0 the code
labels the goal "On Track" (its ratio is special-cased to 1 when the required
slope is 0), while the claim's formulas (ratio = min(2, |recent|/(|required|+eps)),
same_sign by the sign function) give "Behind". -/
theorem c5_fit_label_cex :
    fitLabel 0 0 = "On Track"
  ∧ claimFitLabel 0 0 = "Behind"
  ∧ fitLabel 0 0 ≠ claimFitLabel 0 0 := by
  refine ⟨?_, ?_, ?_⟩
  · norm_num [fitLabel, goalSameSign, ratio2]
  · norm_num [claimFitLabel, claimRatio, qsign, min_def]
  · have h1 : fitLabel 0 0 = "On Track" := by norm_num [fitLabel, goalSameSign, ratio2]
    have h2 : claimFitLabel 0 0 = "Behind" := by
      norm_num [claimFitLabel, claimRatio, qsign, min_def]
    rw [h1, h2]
    decide

/-- Claim C5 (amended): the fit label is "On Track"/"Behind"/"Opposite" as
claimed, except that the ratio is taken to be 1 when the required slope is 0
(otherwise min(2, |recent|/(|required|+eps))) and same-sign compares
(required > 0) with (recent > 0); the probability score is exactly
round(100 * clamp(base + 0.4*min(1, ratio), 0, 1)) with base 0.6/0.2 and so
always lies in [0, 100] (in fact in [20, 100]). -/
theorem c5_fit_and_score (req rec : ℚ) :
    fitLabel req rec
      = (if req = 0 ∨ (0 < req ↔ 0 < rec) then
          (if 1 ≤ (if req = 0 then (1 : ℚ) else claimRatio req rec)
            then "On Track" else "Behind")
        else "Opposite")
  ∧ probScore req rec
      = round ((100 : ℚ) * qclamp ((if req = 0 ∨ (0 < req ↔ 0 < rec) then 3/5 else 1/5)
          + 2/5 * min 1 (claimRatio req rec)) 0 1)
  ∧ 0 ≤ probScore req rec ∧ probScore req rec ≤ 100 := by
  have hgs := goalSameSign_iff req rec
  have hm0 : 0 ≤ min 1 (claimRatio req rec) := le_min (by norm_num) (claimRatio_nonneg req rec)
  have hm1 : min 1 (claimRatio req rec) ≤ 1 := min_le_left _ _
  have hscore : ∀ b : ℚ, 1/5 ≤ b → b ≤ 3/5 →
      (max 0 (min 100 (round ((100 : ℚ) * (b + 2/5 * min 1 (claimRatio req rec)))))
          = round ((100 : ℚ) * qclamp (b + 2/5 * min 1 (claimRatio req rec)) 0 1)
        ∧ (0 : ℤ) ≤ max 0 (min 100 (round ((100 : ℚ) * (b + 2/5 * min 1 (claimRatio req rec)))))
        ∧ max 0 (min 100 (round ((100 : ℚ) * (b + 2/5 * min 1 (claimRatio req rec))))) ≤ 100) := by
    intro b hb1 hb2
    set m := min 1 (claimRatio req rec) with hm
    have hv1 : 1/5 ≤ b + 2/5 * m := by linarith
    have hv2 : b + 2/5 * m ≤ 1 := by linarith
    have hcl : qclamp (b + 2/5 * m) 0 1 = b + 2/5 * m := by
      unfold qclamp
      rw [min_eq_right hv2, max_eq_right (by linarith)]
    have hround1 : (20 : ℤ) ≤ round ((100 : ℚ) * (b + 2/5 * m)) := by
      rw [round_eq]
      exact Int.le_floor.mpr (by push_cast; linarith)
    have hround2 : round ((100 : ℚ) * (b + 2/5 * m)) ≤ 100 := by
      rw [round_eq]
      have hlt : ((100 : ℚ) * (b + 2/5 * m) + 1/2) < ((101 : ℤ) : ℚ) := by
        push_cast; linarith
      have := Int.floor_lt.mpr hlt
      omega
    have hmin : min 100 (round ((100 : ℚ) * (b + 2/5 * m))) = round ((100 : ℚ) * (b + 2/5 * m)) :=
      min_eq_right hround2
    have hmax : max 0 (round ((100 : ℚ) * (b + 2/5 * m))) = round ((100 : ℚ) * (b + 2/5 * m)) :=
      max_eq_right (by omega)
    refine ⟨?_, le_max_left _ _, ?_⟩
    · rw [hmin, hmax, hcl]
    · rw [hmin, hmax]; exact hround2
  by_cases hs : req = 0 ∨ (0 < req ↔ 0 < rec)
  · have hb : goalSameSign req rec = true := hgs.mpr hs
    refine ⟨?_, ?_, ?_, ?_⟩
    · by_cases hr : req = 0
      · subst hr
        simp [fitLabel, hb, ratio2]
      · have hiff : (0 < req ↔ 0 < rec) := hs.resolve_left hr
        simp [fitLabel, hb, hs, ratio2, hr, claimRatio, hiff]
    · have h1 := (hscore (3/5) (by norm_num) (by norm_num)).1
      simp only [probScore, hb, if_true, ratio1_eq_min, hs] at h1 ⊢
      exact h1
    · have h2 := (hscore (3/5) (by norm_num) (by norm_num)).2.1
      simp only [probScore, hb, if_true, ratio1_eq_min] at h2 ⊢
      exact h2
    · have h3 := (hscore (3/5) (by norm_num) (by norm_num)).2.2
      simp only [probScore, hb, if_true, ratio1_eq_min] at h3 ⊢
      exact h3
  · have hb : goalSameSign req rec = false := by
      rw [← Bool.not_eq_true]
      exact fun h => hs (hgs.mp h)
    have hr : ¬ req = 0 := fun h => hs (Or.inl h)
    refine ⟨?_, ?_, ?_, ?_⟩
    · simp [fitLabel, hb, hs]
    · have h1 := (hscore (1/5) (by norm_num) (by norm_num)).1
      simp only [probScore, hb, if_false, Bool.false_eq_true, ratio1_eq_min, hs] at h1 ⊢
      exact h1
    · have h2 := (hscore (1/5) (by norm_num) (by norm_num)).2.1
      simp only [probScore, hb, if_false, Bool.false_eq_true, ratio1_eq_min] at h2 ⊢
      exact h2
    · have h3 := (hscore (1/5) (by norm_num) (by norm_num)).2.2
      simp only [probScore, hb, if_false, Bool.false_eq_true, ratio1_eq_min] at h3 ⊢
      exact h3

/-- Claim C8: on a date-sorted, deduplicated series (strictly increasing
dates), the daily delta for each consecutive pair is the weight change divided
by max(1, day gap) — the per-day rate across a gap, never the raw difference —
attributed to the later date. -/
theorem c8_daily_deltas :
    ∀ (ps : List (ℤ × ℚ)), ps.Chain' (fun p q => p.1 < q.1) →
      dailyDeltas ps
        = List.zipWith (fun p q => (q.1, (q.2 - p.2) / ((max 1 (q.1 - p.1) : ℤ) : ℚ)))
            ps ps.tail
  | [], _ => by simp [dailyDeltas]
  | [p], _ => by simp [dailyDeltas]
  | p :: q :: rest, h => by
      obtain ⟨h1, h2⟩ := List.chain'_cons.mp h
      have hd : (0 : ℤ) < q.1 - p.1 := by omega
      have hmax : max 1 (q.1 - p.1) = q.1 - p.1 := by omega
      have ih := c8_daily_deltas (q :: rest) h2
      simp only [dailyDeltas, if_pos hd, List.tail_cons, List.zipWith_cons_cons,
        List.singleton_append, hmax] at ih ⊢
      rw [ih]

/-- Witness for C8 on the series [(day 0, 80 kg), (day 2, 79 kg)]. -/
theorem c8_daily_deltas_witness :
    dailyDeltas [(0, 80), (2, 79)]
      = List.zipWith (fun p q => (q.1, (q.2 - p.2) / ((max 1 (q.1 - p.1) : ℤ) : ℚ)))
          [(0, 80), (2, 79)] [(2, 79)] :=
  c8_daily_deltas [(0, 80), (2, 79)] (by simp)

lemma incrAt_length (cs : List ℕ) (i : ℕ) : (incrAt cs i).length = cs.length := by
  induction cs generalizing i with
  | nil => simp [incrAt]
  | cons c t ih =>
      cases i with
      | zero => simp [incrAt]
      | succ n => simp [incrAt, ih]

lemma incrAt_sum (cs : List ℕ) (i : ℕ) (h : i < cs.length) :
    (incrAt cs i).sum = cs.sum + 1 := by
  induction cs generalizing i with
  | nil => simp at h
  | cons c t ih =>
      cases i with
      | zero => simp [incrAt]; omega
      | succ n =>
          have : n < t.length := by simpa using h
          simp [incrAt, ih n this]
          omega

lemma histIndex_lt (mn width : ℚ) (bins : ℕ) (hb : 0 < bins) (v : ℚ) :
    histIndex mn width bins v < bins := by
  simp only [histIndex]
  split_ifs <;> omega

lemma hist_counts (mn width : ℚ) (bins : ℕ) (hb : 0 < bins) :
    ∀ (l : List ℚ) (cs : List ℕ), cs.length = bins →
      (l.foldl (fun cs v => incrAt cs (histIndex mn width bins v)) cs).length = bins
      ∧ (l.foldl (fun cs v => incrAt cs (histIndex mn width bins v)) cs).sum
          = cs.sum + l.length := by
  intro l
  induction l with
  | nil => intro cs hcs; simpa using hcs
  | cons v t ih =>
      intro cs hcs
      have hlt : histIndex mn width bins v < cs.length := by
        rw [hcs]; exact histIndex_lt mn width bins hb v
      have hlen : (incrAt cs (histIndex mn width bins v)).length = bins := by
        rw [incrAt_length, hcs]
      have := ih (incrAt cs (histIndex mn width bins v)) hlen
      refine ⟨this.1, ?_⟩
      rw [List.foldl_cons, this.2, incrAt_sum cs _ hlt]
      simp only [List.length_cons]
      omega

lemma foldl_min_le (l : List ℚ) (a : ℚ) :
    l.foldl min a ≤ a ∧ ∀ x ∈ l, l.foldl min a ≤ x := by
  induction l generalizing a with
  | nil => simp
  | cons y t ih =>
      have h := ih (min a y)
      refine ⟨le_trans h.1 (min_le_left a y), ?_⟩
      intro x hx
      rcases List.mem_cons.mp hx with rfl | hx
      · exact le_trans h.1 (min_le_right a x)
      · exact h.2 x hx

lemma le_foldl_max (l : List ℚ) (a : ℚ) :
    a ≤ l.foldl max a ∧ ∀ x ∈ l, x ≤ l.foldl max a := by
  induction l generalizing a with
  | nil => simp
  | cons y t ih =>
      have h := ih (max a y)
      refine ⟨le_trans (le_max_left a y) h.1, ?_⟩
      intro x hx
      rcases List.mem_cons.mp hx with rfl | hx
      · exact le_trans (le_max_right a x) h.1
      · exact h.2 x hx

lemma foldl_min_const (l : List ℚ) (a : ℚ) (h : ∀ x ∈ l, x = a) :
    l.foldl min a = a := by
  induction l with
  | nil => simp
  | cons y t ih =>
      have hy : y = a := h y (by simp)
      subst hy
      simp only [List.foldl_cons, min_self]
      exact ih (fun x hx => h x (by simp [hx]))

lemma foldl_max_const (l : List ℚ) (a : ℚ) (h : ∀ x ∈ l, x = a) :
    l.foldl max a = a := by
  induction l with
  | nil => simp
  | cons y t ih =>
      have hy : y = a := h y (by simp)
      subst hy
      simp only [List.foldl_cons, max_self]
      exact ih (fun x hx => h x (by simp [hx]))

/-- Claim C6: for a non-empty delta list and a positive bin count, the
histogram's bucket counts sum to the number of input values; when all values
are equal (min = max) the result is exactly one bucket holding all points, and
otherwise there are exactly `bins` equal-width buckets. -/
theorem c6_histogram_partition (a : ℚ) (rest : List ℚ) (bins : ℕ) (hb : 0 < bins) :
    (((histogram (a :: rest) bins).map Prod.snd).sum = (a :: rest).length)
  ∧ ((∀ x ∈ a :: rest, x = a) → histogram (a :: rest) bins = [(a, (a :: rest).length)])
  ∧ ((¬ ∀ x ∈ a :: rest, x = a) → (histogram (a :: rest) bins).length = bins) := by
  by_cases hmm : (a :: rest).foldl min a = (a :: rest).foldl max a
  · have hall : ∀ x ∈ a :: rest, x = a := by
      intro x hx
      have h1 := (foldl_min_le (a :: rest) a).2 x hx
      have h2 := (le_foldl_max (a :: rest) a).2 x hx
      have h1a := (foldl_min_le (a :: rest) a).1
      have h2a := (le_foldl_max (a :: rest) a).1
      rw [← hmm] at h2 h2a
      linarith
    have hmin : (a :: rest).foldl min a = a := foldl_min_const _ a hall
    have hh : histogram (a :: rest) bins = [(a, (a :: rest).length)] := by
      rw [histogram, if_pos hmm, hmin]
    refine ⟨?_, fun _ => hh, fun hn => absurd hall hn⟩
    rw [hh]
    simp
  · have hne : ¬ ∀ x ∈ a :: rest, x = a := by
      intro hall
      exact hmm ((foldl_min_const _ a hall).trans (foldl_max_const _ a hall).symm)
    have hc := hist_counts ((a :: rest).foldl min a)
      (((a :: rest).foldl max a - (a :: rest).foldl min a) / (bins : ℚ)) bins hb
      (a :: rest) (List.replicate bins 0) (by simp)
    have hh : histogram (a :: rest) bins
        = ((List.range bins).zip
            ((a :: rest).foldl
              (fun cs v => incrAt cs (histIndex ((a :: rest).foldl min a)
                (((a :: rest).foldl max a - (a :: rest).foldl min a) / (bins : ℚ)) bins v))
              (List.replicate bins 0))).map
            (fun p => ((a :: rest).foldl min a
              + (p.1 : ℚ) * (((a :: rest).foldl max a - (a :: rest).foldl min a) / (bins : ℚ)),
              p.2)) := by
      rw [histogram, if_neg hmm]
    refine ⟨?_, fun hall => absurd hall hne, fun _ => ?_⟩
    · rw [hh, List.map_map]
      have hsnd : (Prod.snd ∘ fun p : ℕ × ℕ => ((a :: rest).foldl min a
          + (p.1 : ℚ) * (((a :: rest).foldl max a - (a :: rest).foldl min a) / (bins : ℚ)),
          p.2)) = Prod.snd := by
        funext p
        rfl
      rw [hsnd, List.map_snd_zip _ _ (by rw [hc.1, List.length_range]), hc.2]
      simp
    · rw [hh, List.length_map, List.length_zip, List.length_range, hc.1, min_self]

/-- Witness for C6: bucket counts of [2, 3] over 5 bins sum to 2, and the
all-equal series [3, 3] yields the single bucket (3, 2). -/
theorem c6_histogram_partition_witness :
    (((histogram [2, 3] 5).map Prod.snd).sum = 2)
  ∧ histogram [3, 3] 5 = [(3, 2)] :=
  ⟨(c6_histogram_partition 2 [3] 5 (by norm_num)).1,
   (c6_histogram_partition 3 [3] 5 (by norm_num)).2.1 (by simp)⟩

lemma sum_nonneg_all_zero (l : List ℝ) (h : ∀ x ∈ l, 0 ≤ x) (h0 : l.sum = 0) :
    ∀ x ∈ l, x = 0 := by
  induction l with
  | nil => simp
  | cons a t ih =>
      have ha : 0 ≤ a := h a (by simp)
      have ht : 0 ≤ t.sum := List.sum_nonneg (fun x hx => h x (by simp [hx]))
      have hsum : a + t.sum = 0 := by simpa using h0
      have ha0 : a = 0 := by linarith
      have ht0 : t.sum = 0 := by linarith
      intro x hx
      rcases List.mem_cons.mp hx with rfl | hx
      · exact ha0
      · exact ih (fun y hy => h y (by simp [hy])) ht0 x hx

open Classical in
lemma countOutliers_eq (arr : List ℝ) :
    countOutliers arr = if arr.length < 3 then 0
      else (arr.filter fun v => decide (3 * stddev arr < |v - arr.sum / arr.length|)).length := by
  by_cases h3 : arr.length < 3
  · simp [countOutliers, h3]
  · rw [if_neg h3]
    simp only [countOutliers, if_neg h3]
    by_cases hs : stddev arr = 0
    · rw [if_pos hs]
      symm
      rw [List.length_eq_zero, List.filter_eq_nil_iff]
      intro v hv
      have h2 : ¬ arr.length < 2 := by omega
      have hstd : Real.sqrt (((arr.map (fun b => (b - arr.sum / arr.length)
          * (b - arr.sum / arr.length))).sum) / arr.length) = 0 := by
        rw [stddev, if_neg h2] at hs
        exact hs
      have hnneg : 0 ≤ ((arr.map (fun b => (b - arr.sum / arr.length)
          * (b - arr.sum / arr.length))).sum) / arr.length := by
        apply div_nonneg _ (Nat.cast_nonneg _)
        apply List.sum_nonneg
        intro x hx
        rcases List.mem_map.mp hx with ⟨b, _, rfl⟩
        exact mul_self_nonneg _
      have hvar0 : ((arr.map (fun b => (b - arr.sum / arr.length)
          * (b - arr.sum / arr.length))).sum) / arr.length = 0 :=
        le_antisymm (Real.sqrt_eq_zero'.mp hstd) hnneg
      have hlen : ((arr.length : ℝ)) ≠ 0 := by
        have : 3 ≤ arr.length := by omega
        positivity
      have hsum0 : ((arr.map (fun b => (b - arr.sum / arr.length)
          * (b - arr.sum / arr.length))).sum) = 0 := by
        rcases div_eq_zero_iff.mp hvar0 with h | h
        · exact h
        · exact absurd h hlen
      have hallsq := sum_nonneg_all_zero _
        (fun x hx => by
          rcases List.mem_map.mp hx with ⟨b, _, rfl⟩
          exact mul_self_nonneg _) hsum0
      have hveq : v - arr.sum / arr.length = 0 := by
        have := hallsq _ (List.mem_map_of_mem
          (fun b => (b - arr.sum / arr.length) * (b - arr.sum / arr.length)) hv)
        exact mul_self_eq_zero.mp this
      simp only [decide_eq_true_eq, not_lt, hs, hveq]
      simp
    · rw [if_neg hs]

open Classical in
/-- Claim C7: the outlier count is always a value, never an error: with fewer
than 3 deltas it is 0 by definition, and otherwise it is exactly the number of
values v with |v - mean| > 3*std over the same list (the code's extra
early-return when std = 0 agrees with this count, since a zero standard
deviation forces every value to equal the mean). -/
theorem c7_outlier_total (arr : List ℝ) :
    (arr.length < 3 → countOutliers arr = 0)
  ∧ (3 ≤ arr.length → countOutliers arr
      = (arr.filter fun v => decide (3 * stddev arr < |v - arr.sum / arr.length|)).length) := by
  constructor
  · intro h
    rw [countOutliers_eq, if_pos h]
  · intro h
    rw [countOutliers_eq, if_neg (by omega)]

open Classical in
/-- Witness for C7 on a 2-element and a 3-element list. -/
theorem c7_outlier_total_witness :
    countOutliers [1, 2] = 0
  ∧ countOutliers [0, 0, 5]
      = (([0, 0, 5] : List ℝ).filter
          fun v => decide (3 * stddev [0, 0, 5]
            < |v - ([0, 0, 5] : List ℝ).sum / (([0, 0, 5] : List ℝ).length : ℝ)|)).length :=
  ⟨(c7_outlier_total [1, 2]).1 (by simp), (c7_outlier_total [0, 0, 5]).2 (by simp)⟩

lemma stddev_concrete : stddev [1, 1, 1, 1, 100] = 198/5 := by
  simp only [stddev]
  norm_num
  rw [show (39204 : ℝ) = 198^2 by norm_num, show (25 : ℝ) = 5^2 by norm_num,
    Real.sqrt_sq (by norm_num : (0:ℝ) ≤ 198), Real.sqrt_sq (by norm_num : (0:ℝ) ≤ 5)]

open Classical in
lemma countOutliers_concrete : countOutliers [1, 1, 1, 1, 100] = 0 := by
  simp only [countOutliers]
  rw [if_neg (by norm_num), if_neg (by rw [stddev_concrete]; norm_num)]
  rw [List.length_eq_zero, List.filter_eq_nil_iff]
  intro v hv
  rw [stddev_concrete]
  fin_cases hv <;> simp only [decide_eq_true_eq, not_lt] <;> norm_num <;>
    rw [abs_le] <;> constructor <;> norm_num

/-- Counterexample for C2: on the delta list [1,1,1,1,100] the outlier count
is 0, not 1. -/
theorem c2_outlier_cex : countOutliers [1, 1, 1, 1, 100] ≠ 1 := by
  rw [countOutliers_concrete]
  decide

/-- Claim C2 (amended): on [1,1,1,1,100] the outlier count is exactly 0: the
standard deviation is 39.6, so even the value 100 — at distance 79.2 from the
mean 20.8 — stays within 3 standard deviations (118.8), and so does each 1.
(No 5-point list can have a 3-sigma outlier for the population std.) -/
theorem c2_outlier_count :
    countOutliers [1, 1, 1, 1, 100] = 0
  ∧ stddev [1, 1, 1, 1, 100] = 198/5
  ∧ ¬ (3 * stddev [1, 1, 1, 1, 100]
        < |(100 : ℝ) - ([1, 1, 1, 1, 100] : List ℝ).sum / (([1, 1, 1, 1, 100] : List ℝ).length : ℝ)|)
  ∧ ¬ (3 * stddev [1, 1, 1, 1, 100]
        < |(1 : ℝ) - ([1, 1, 1, 1, 100] : List ℝ).sum / (([1, 1, 1, 1, 100] : List ℝ).length : ℝ)|) := by
  refine ⟨countOutliers_concrete, stddev_concrete, ?_, ?_⟩ <;>
    rw [stddev_concrete] <;> norm_num <;> rw [abs_le] <;> constructor <;> norm_num

lemma computeRecentSlope_of_sorted (history : List (ℤ × ℚ)) (now : ℤ)
    (hsort : history.Pairwise (fun p q => p.1 ≤ q.1))
    (hwin : ∀ p ∈ history, now - 56 ≤ p.1) :
    computeRecentSlope history none false now =
      if history.length < 2 then 0 else
      (linReg (history.map fun p => ((p.1 - (history.headD (0, 0)).1 : ℤ) : ℚ))
              (history.map fun p => p.2)).1 * 7 := by
  have hfilter : history.filter (fun p => decide (now - 56 ≤ p.1)) = history := by
    rw [List.filter_eq_self]
    intro a ha
    exact decide_eq_true (hwin a ha)
  have hsorted : List.Pairwise (fun a b : ℤ × ℚ => decide (a.1 ≤ b.1) = true) history :=
    hsort.imp (fun h => decide_eq_true h)
  have hms : (history.filter (fun p => decide (now - 56 ≤ p.1))).mergeSort
      (fun a b => decide (a.1 ≤ b.1)) = history := by
    rw [hfilter]
    exact List.mergeSort_of_sorted hsorted
  by_cases hlen : history.length < 2
  · simp [computeRecentSlope, hlen]
  · simp only [computeRecentSlope, hms, if_neg hlen]
    simp

lemma crs_in_window : computeRecentSlope [(0, 80), (10, 79)] none false 20 = -7/10 := by
  rw [computeRecentSlope_of_sorted _ _ (by decide) (by decide)]
  norm_num [linReg]

lemma crs_out_of_window : computeRecentSlope [(0, 80), (10, 79)] none false 80 = 0 := by
  have hf : ([((0:ℤ), (80:ℚ)), (10, 79)].filter (fun p => decide (80 - 56 ≤ p.1))) = [] := by
    decide
  simp only [computeRecentSlope, hf, List.mergeSort_nil]
  norm_num

/-- Counterexample for C3: `computeRecentSlope` — and the last-30-days delta
restriction — read the current wall-clock date: the same series gives a
different answer when evaluated 60 days apart, so the analyzers are not
functions of (series, goals, profile, parameters) alone. -/
theorem c3_wall_clock_cex :
    computeRecentSlope [(0, 80), (10, 79)] none false 20
      ≠ computeRecentSlope [(0, 80), (10, 79)] none false 80
  ∧ changes30d [(10, 1)] 20 ≠ changes30d [(10, 1)] 50 := by
  constructor
  · rw [crs_in_window, crs_out_of_window]
    norm_num
  · have h1 : changes30d [(10, 1)] 20 = [1] := by decide
    have h2 : changes30d [(10, 1)] 50 = [] := by decide
    rw [h1, h2]
    simp

/-- Claim C3 (amended): every analyzer is a deterministic function of its
inputs together with the current wall-clock date: two calls with identical
series, profile, parameters and evaluation date return identical outputs; the
recent-slope and last-30-days computations do depend on the current date. -/
theorem c3_deterministic (h₁ h₂ : List (ℤ × ℚ)) (u₁ u₂ : Option ℚ) (b₁ b₂ : Bool)
    (n₁ n₂ : ℤ) (a₁ a₂ : List ℚ) (bins₁ bins₂ : ℕ)
    (hh : h₁ = h₂) (hu : u₁ = u₂) (hb : b₁ = b₂) (hn : n₁ = n₂)
    (ha : a₁ = a₂) (hbins : bins₁ = bins₂) :
    computeRecentSlope h₁ u₁ b₁ n₁ = computeRecentSlope h₂ u₂ b₂ n₂
  ∧ changes30d h₁ n₁ = changes30d h₂ n₂
  ∧ dailyDeltas h₁ = dailyDeltas h₂
  ∧ histogram a₁ bins₁ = histogram a₂ bins₂
  ∧ linReg a₁ a₁ = linReg a₂ a₂ := by
  subst hh; subst hu; subst hb; subst hn; subst ha; subst hbins
  exact ⟨rfl, rfl, rfl, rfl, rfl⟩

/-- Witness for C3's determinism at concrete inputs. -/
theorem c3_deterministic_witness :
    computeRecentSlope [(0, 80)] none false 0 = computeRecentSlope [(0, 80)] none false 0
  ∧ changes30d [(0, 80)] 0 = changes30d [(0, 80)] 0 :=
  ⟨(c3_deterministic [(0, 80)] [(0, 80)] none none false false 0 0 [1] [1] 2 2
      rfl rfl rfl rfl rfl rfl).1,
   (c3_deterministic [(0, 80)] [(0, 80)] none none false false 0 0 [1] [1] 2 2
      rfl rfl rfl rfl rfl rfl).2.1⟩

/-- Counterexample for C4: the series [(day 0, 80), (day 10, 79)] has both
samples within 56 days of its latest sample (day 10), so the claim's
window — ending at the latest sample — contains 2 samples and its OLS
slope times 7 is -0.7; but evaluated on day 80 the code returns 0, because its
window ends at the current date, not the latest sample. -/
theorem c4_recent_window_cex :
    (∀ p ∈ [((0:ℤ), (80:ℚ)), (10, 79)], 10 - 56 ≤ p.1)
  ∧ (linReg [0, 10] [80, 79]).1 * 7 = -7/10
  ∧ computeRecentSlope [(0, 80), (10, 79)] none false 80 = 0
  ∧ (-7/10 : ℚ) ≠ 0 := by
  refine ⟨by decide, ?_, crs_out_of_window, by norm_num⟩
  norm_num [linReg]

lemma computeRecentSlope_filter_sorted (history : List (ℤ × ℚ)) (now : ℤ)
    (hsort : history.Pairwise (fun p q => p.1 ≤ q.1)) :
    computeRecentSlope history none false now =
      if (history.filter (fun p => decide (now - 56 ≤ p.1))).length < 2 then 0 else
      (linReg ((history.filter (fun p => decide (now - 56 ≤ p.1))).map
          fun p => ((p.1 - ((history.filter (fun p => decide (now - 56 ≤ p.1))).headD (0, 0)).1 : ℤ) : ℚ))
        ((history.filter (fun p => decide (now - 56 ≤ p.1))).map fun p => p.2)).1 * 7 := by
  have hfs : (history.filter (fun p => decide (now - 56 ≤ p.1))).Pairwise
      (fun p q : ℤ × ℚ => p.1 ≤ q.1) :=
    hsort.sublist (List.filter_sublist _)
  have hms : (history.filter (fun p => decide (now - 56 ≤ p.1))).mergeSort
      (fun a b => decide (a.1 ≤ b.1)) = history.filter (fun p => decide (now - 56 ≤ p.1)) :=
    List.mergeSort_of_sorted (hfs.imp (fun h => decide_eq_true h))
  by_cases hflen : (history.filter (fun p => decide (now - 56 ≤ p.1))).length < 2
  · rw [if_pos hflen]
    by_cases hlen : history.length < 2
    · simp [computeRecentSlope, hlen]
    · simp only [computeRecentSlope, hms, if_neg hlen, if_pos hflen]
  · have hlen : ¬ history.length < 2 := by
      have := List.length_filter_le (fun p => decide (now - 56 ≤ p.1)) history
      omega
    rw [if_neg hflen]
    simp only [computeRecentSlope, hms, if_neg hlen, if_neg hflen]
    simp

/-- Claim C4 (amended): the trailing 8-week (56-day) window ends at the
current wall-clock date, not at the latest sample: for every date-sorted
series — samples older than 56 days before `now` allowed and filtered out —
the recent slope equals the OLS slope of weight versus day-offset over exactly
the samples dated within the window times 7 when at least 2 samples lie in the
window, and 0 when fewer than 2 do. -/
theorem c4_recent_slope (history : List (ℤ × ℚ)) (now : ℤ)
    (hsort : history.Pairwise (fun p q => p.1 ≤ q.1)) :
    (2 ≤ (history.filter (fun p => decide (now - 56 ≤ p.1))).length →
      computeRecentSlope history none false now
        = (linReg ((history.filter (fun p => decide (now - 56 ≤ p.1))).map
              fun p => ((p.1 - ((history.filter (fun p => decide (now - 56 ≤ p.1))).headD (0, 0)).1 : ℤ) : ℚ))
            ((history.filter (fun p => decide (now - 56 ≤ p.1))).map fun p => p.2)).1 * 7)
  ∧ ((history.filter (fun p => decide (now - 56 ≤ p.1))).length < 2 →
      computeRecentSlope history none false now = 0) := by
  have h := computeRecentSlope_filter_sorted history now hsort
  constructor
  · intro h2
    rw [h, if_neg (by omega)]
  · intro h2
    rw [h, if_pos h2]

/-- Witness for C4: a series with a sample 100 days old — outside the 56-day
window on day 7 — keeps exactly its 2 in-window samples (first branch), and a
series with only one in-window sample yields 0 (second branch). -/
theorem c4_recent_slope_witness :
    computeRecentSlope [(-100, 90), (0, 80), (7, 79)] none false 7
      = (linReg (([((-100:ℤ), (90:ℚ)), (0, 80), (7, 79)].filter
            (fun p => decide (7 - 56 ≤ p.1))).map
          fun p => ((p.1 - (([((-100:ℤ), (90:ℚ)), (0, 80), (7, 79)].filter
            (fun p => decide (7 - 56 ≤ p.1))).headD (0, 0)).1 : ℤ) : ℚ))
        (([((-100:ℤ), (90:ℚ)), (0, 80), (7, 79)].filter
            (fun p => decide (7 - 56 ≤ p.1))).map fun p => p.2)).1 * 7
  ∧ computeRecentSlope [(-100, 90), (0, 80)] none false 7 = 0 :=
  ⟨(c4_recent_slope [(-100, 90), (0, 80), (7, 79)] 7 (by decide)).1 (by decide),
   (c4_recent_slope [(-100, 90), (0, 80)] 7 (by decide)).2 (by decide)⟩

/-- Claim C9: on the perfectly linear weekly series [(d0, 80), (d0+7, 79),
(d0+14, 78)] the fitted trend has slope -1.0 per week and a coefficient of
determination of exactly 1. -/
theorem c9_perfect_line :
    computeRecentSlope [(0, 80), (7, 79), (14, 78)] none false 14 = -1
  ∧ r2 [0, 7, 14] [80, 79, 78] = 1 := by
  constructor
  · rw [computeRecentSlope_of_sorted _ _ (by decide) (by decide)]
    norm_num [linReg]
  · norm_num [r2, linReg]

